import Mathlib

/-!
Shallow embedding of the meilisearch-operator controllers
(crates/meilisearch-operator/src/{key_controller,index_controller,server_controller}.rs).

Conventions of the embedding:
* Rust `Option<T>` becomes `Option T`, fallible paths become `Except String _`.
* `HashSet` equality in `eq_unordered` becomes `Finset` equality.
* RFC3339 parsing (the `time` crate) is an external collaborator: it is
  threaded as a parameter `parse : String → Option Int` where `Int` stands for
  the parsed instant; `OffsetDateTime::parse(s).ok()` becomes `parse s`.
* UTF-8 decoding (`String::from_utf8`) is likewise threaded as a parameter
  `dec : List Nat → Option String` over byte lists.
* Kubernetes and Meilisearch I/O is modelled by an explicit environment
  (which secrets exist, the referenced Server's state, the remote key
  listing, the engine's reply to a key creation); each reconcile is a pure
  function from that environment and the custom resource to either an error
  (the Rust `Err(ReconcileError)`) or an outcome recording the remote-engine
  calls issued, the secrets written, finalizer changes, the status patch and
  the returned `Action`.  Transient cluster/API failures of writes are not
  modelled; the master-key secret lookup is modelled faithfully because the
  controllers' control flow depends on it.
-/

namespace MeiliOp

/-- Ordered-insensitive list comparison, from `eq_unordered` in
key_controller.rs (and its identical copy in index_controller.rs): both
sides are collected into a `HashSet` and the sets are compared. -/
def eq_unordered {α : Type} [DecidableEq α] (a b : List α) : Bool :=
  decide (a.toFinset = b.toFinset)

/-- Model of `same_string_opt` from key_controller.rs: a `None` spec field accepts
any remote value; a `Some` spec field must be matched exactly. -/
def same_string_opt (a b : Option String) : Bool :=
  match a, b with
  | some x, some y => x == y
  | none, _ => true
  | _, _ => false

/-- Model of `parse_rfc3339_opt` from key_controller.rs, with the RFC3339 parser
abstracted as `p`. -/
def parse_rfc3339_opt (p : String → Option Int) (s : Option String) : Option Int :=
  s.bind fun v => p v

/-- Model of `normalize_actions` from key_controller.rs: clones every action string
(the identity on the value level). -/
def normalize_actions (spec_actions : List String) : List String :=
  spec_actions.map (fun s => s)

/-- Spec of a `Key` custom resource (crds/key.rs `KeySpec`). -/
structure KeySpec where
  server_ref : String
  name : Option String
  description : Option String
  actions : List String
  indexes : List String
  expires_at : Option String
  secret_namespace : String
  secret_name : String
deriving DecidableEq, Repr

/-- Status of a `Key` custom resource (crds/key.rs `KeyStatus`). -/
structure KeyStatus where
  uid : Option String
  ready : Bool
  message : Option String
deriving DecidableEq, Repr

/-- The object metadata the controllers read: namespace (field `ns`),
name, Kubernetes uid, deletion timestamp and finalizer list. -/
structure ObjectMeta where
  ns : String
  name : String
  uid : Option String
  deletionTimestamp : Option String
  finalizers : List String
deriving DecidableEq, Repr

/-- A `Key` custom resource. -/
structure Key where
  metadata : ObjectMeta
  spec : KeySpec
  status : Option KeyStatus
deriving DecidableEq, Repr

/-- One row of `GET /keys` as key_controller.rs deserializes it
(`KeyItem`). -/
structure KeyItem where
  name : Option String
  description : Option String
  key : String
  uid : String
  actions : List String
  indexes : List String
  expiresAt : Option String
deriving DecidableEq, Repr

/-- Model of `matches_spec` from key_controller.rs: exact adoption predicate. -/
def matches_spec (p : String → Option Int) (item : KeyItem) (key : Key) : Bool :=
  if !same_string_opt key.spec.name item.name then false
  else if !same_string_opt key.spec.description item.description then false
  else if !eq_unordered (normalize_actions key.spec.actions) item.actions then false
  else if !eq_unordered key.spec.indexes item.indexes then false
  else
    match key.spec.expires_at, item.expiresAt with
    | some se, some ie => parse_rfc3339_opt p (some se) == parse_rfc3339_opt p (some ie)
    | some _, none => false
    | _, _ => true

/-- Model of `matches_spec_relaxed` from key_controller.rs: ignores name and
description, keeps the action/index/expiry tests. -/
def matches_spec_relaxed (p : String → Option Int) (item : KeyItem) (key : Key) : Bool :=
  if !eq_unordered (normalize_actions key.spec.actions) item.actions then false
  else if !eq_unordered key.spec.indexes item.indexes then false
  else
    match key.spec.expires_at, item.expiresAt with
    | some se, some ie => parse_rfc3339_opt p (some se) == parse_rfc3339_opt p (some ie)
    | some _, none => false
    | _, _ => true

/-- One row of `GET /keys` as index_controller.rs deserializes it (its own
`KeyItem` struct, which carries no expiry field). -/
structure AdminKeyItem where
  name : Option String
  description : Option String
  key : String
  uid : String
  actions : List String
  indexes : List String
deriving DecidableEq, Repr

/-- Model of `matches_admin` from index_controller.rs: the admin-key adoption
predicate for an index uid. -/
def matches_admin (index_uid : String) (item : AdminKeyItem) : Bool :=
  let expected_name := index_uid ++ "-admin"
  let expected_desc := "Admin key for index " ++ index_uid
  let actions_ok := item.actions.any (fun a => a == "*")
  let indexes_ok := eq_unordered [index_uid] item.indexes
  let name_ok := (item.name.map (fun s => s == expected_name)).getD false
  let desc_ok := (item.description.map (fun s => s == expected_desc)).getD false
  actions_ok && indexes_ok && name_ok && desc_ok

/-!
## The health wait (server_controller.rs `wait_meili_healthy_with`)

The Rust loop increments an attempt counter, probes `GET {endpoint}/health`
(a probe counts as successful when the request succeeds with a 2xx status),
returns `Ok` on a successful probe, and returns `Err` when the counter
exceeds `max_attempts` — a test made only *after* the probe, so the probe
numbered `max_attempts + 1` is still issued before the error.  The model
abstracts the i-th probe's result as `probe i` (0-based) and returns
`some n` when the n-th probe (1-based) succeeded, `none` for the error.
The structural argument `r` is the remaining budget `max_attempts - k`.
-/
def wait_meili_healthy_go (probe : Nat → Bool) : Nat → Nat → Option Nat
  | k, 0 => if probe k then some (k + 1) else none
  | k, r + 1 => if probe k then some (k + 1) else wait_meili_healthy_go probe (k + 1) r

/-- Model of `wait_meili_healthy_with` from server_controller.rs; `interval` is the
sleep between probes and does not affect which probe ends the wait. -/
def wait_meili_healthy_with (probe : Nat → Bool) (_interval : Nat) (max_attempts : Nat) :
    Option Nat :=
  wait_meili_healthy_go probe 0 max_attempts

/-- Model of `wait_meili_healthy` from server_controller.rs: the defaults are a
2-second interval and 120 max attempts. -/
def wait_meili_healthy (probe : Nat → Bool) : Option Nat :=
  wait_meili_healthy_with probe 2 120

/-!
## Secrets and owner references
-/

/-- The fields of `OwnerReference` the controllers set. -/
structure OwnerReference where
  apiVersion : String
  kind : String
  name : String
  uid : String
  controller : Option Bool
  blockOwnerDeletion : Option Bool
deriving DecidableEq, Repr

/-- The fields of a Kubernetes `Secret` the controllers read and write:
`data` holds byte entries, `stringData` holds plain-string entries. -/
structure KSecret where
  name : Option String
  ownerReferences : Option (List OwnerReference)
  data : Option (List (String × List Nat))
  stringData : Option (List (String × String))
deriving DecidableEq, Repr

/-- Model of `owner_ref` from server_controller.rs: the controller owner reference a
Server stamps on the objects it owns. -/
def owner_ref (serverName serverUid : String) : OwnerReference :=
  { apiVersion := "meili.operator.dev/v1beta1", kind := "Server",
    name := serverName, uid := serverUid,
    controller := some true, blockOwnerDeletion := some true }

/-- The owner reference `store_key_secret` (key_controller.rs) builds when
the target namespace is the Key's own namespace. -/
def key_owner_ref (ownerName ownerUid : String) : OwnerReference :=
  { apiVersion := "meili.operator.dev/v1alpha1", kind := "Key",
    name := ownerName, uid := ownerUid,
    controller := some true, blockOwnerDeletion := some true }

/-- The owner reference `store_index_key_secret` (index_controller.rs)
builds when the target namespace is the Index's own namespace. -/
def index_owner_ref (ownerName ownerUid : String) : OwnerReference :=
  { apiVersion := "meili.operator.dev/v1alpha1", kind := "Index",
    name := ownerName, uid := ownerUid,
    controller := some true, blockOwnerDeletion := some true }

/-- Model of `store_key_secret` from key_controller.rs: the Secret object submitted
to the create call.  The owner reference is attached only when the owner's
namespace equals the target namespace (`owner_ns == target_ns`); its uid is
the Key's Kubernetes uid (`unwrap_or_default`, hence `""` when missing). -/
def store_key_secret (owner_ns owner_name owner_uid target_ns name key : String) : KSecret :=
  { name := some name,
    ownerReferences :=
      if owner_ns == target_ns then some [key_owner_ref owner_name owner_uid] else none,
    data := none,
    stringData := some [("key", key)] }

/-- Model of `store_index_key_secret` from index_controller.rs: same shape, owned by
the Index when same-namespace. -/
def store_index_key_secret (owner_ns owner_name owner_uid target_ns name key : String) :
    KSecret :=
  { name := some name,
    ownerReferences :=
      if owner_ns == target_ns then some [index_owner_ref owner_name owner_uid] else none,
    data := none,
    stringData := some [("key", key)] }

/-- The mirror Secret `ensure_operator_copy` (server_controller.rs) applies
into the operator namespace: named `<ns>-<name>-meili-master`, bearing the
master key and NO owner references. -/
def ensure_operator_copy (ns name key : String) : KSecret :=
  { name := some (ns ++ "-" ++ name ++ "-meili-master"),
    ownerReferences := none,
    data := none,
    stringData := some [("masterKey", key)] }

/-!
## Master-key secret lookup and generation
-/

/-- Model of `get_master_key` (duplicated verbatim in key_controller.rs and
index_controller.rs): reads secret `<server>-meili-master` in the Server's
namespace; a missing secret is a propagated 404 error, missing `data`, a
missing `masterKey` entry, and undecodable bytes are each errors.  `sec` is
what the cluster returns (`none` = 404), `dec` the UTF-8 decoder. -/
def get_master_key (dec : List Nat → Option String) (sec : Option KSecret) :
    Except String String :=
  match sec with
  | none => .error "kube api error 404"
  | some s =>
    match s.data with
    | none => .error "secret data missing"
    | some d =>
      match d.lookup "masterKey" with
      | none => .error "missing key"
      | some bytes =>
        match dec bytes with
        | some v => .ok v
        | none => .error "invalid utf-8"

/-- The 62-symbol alphabet of rand's `Alphanumeric` distribution. -/
def alphanum_alphabet : List Char :=
  "ABCDEFGHIJKLMNOPQRSTUVWXYZabcdefghijklmnopqrstuvwxyz0123456789".toList

/-- One sampled alphanumeric character, the RNG abstracted as a stream of
indices into the alphabet. -/
def alphanumChar (i : Fin 62) : Char :=
  alphanum_alphabet.getD i.val 'A'

/-- The sample `rand::thread_rng().sample_iter(&Alphanumeric).take(n)` collected into a
string, with the RNG abstracted as `rng`. -/
def sample_alphanumeric (rng : Nat → Fin 62) (n : Nat) : String :=
  String.mk ((List.range n).map fun j => alphanumChar (rng j))

/-- What the cluster answers to the secret create in
`ensure_master_key_secret`. -/
inductive CreateOutcome
  | success
  | conflict409
  | apiError (code : Nat)
deriving DecidableEq, Repr

/-- The environment of `ensure_master_key_secret`: the existing secret
`<name>-meili-master` (`none` = not found) and the outcome the cluster
gives the create call. -/
structure MasterKeyEnv where
  existing : Option KSecret
  createOutcome : CreateOutcome
deriving Repr

/-- Model of `ensure_master_key_secret` from server_controller.rs.  Returns the
master-key value together with the Secret object submitted to the create
call (`none` when no create was attempted).  The existing secret's value is
used only when the secret exists AND has `data` AND a `masterKey` entry;
in every other case a fresh 64-character alphanumeric key is generated and
a create is attempted, whose 409-conflict outcome still returns the fresh
key. -/
def ensure_master_key_secret (dec : List Nat → Option String) (rng : Nat → Fin 62)
    (env : MasterKeyEnv) (name : String) (owner : OwnerReference) :
    Except String (String × Option KSecret) :=
  let sec_name := name ++ "-meili-master"
  match (env.existing.bind fun s => s.data).bind (fun d => d.lookup "masterKey") with
  | some bytes =>
    match dec bytes with
    | some v => .ok (v, none)
    | none => .error "invalid utf-8"
  | none =>
    let key := sample_alphanumeric rng 64
    let sec : KSecret :=
      { name := some sec_name,
        ownerReferences := some [owner],
        data := none,
        stringData := some [("masterKey", key)] }
    match env.createOutcome with
    | .success => .ok (key, some sec)
    | .conflict409 => .ok (key, some sec)
    | .apiError c => .error ("kube api error " ++ toString c)

/-!
## Endpoints
-/

/-- The engine endpoint the Index and Key reconciles dial
(key_controller.rs line 35, index_controller.rs lines 42 and 54): the port
is the literal 7700. -/
def child_endpoint (server ns : String) : String :=
  "http://" ++ server ++ "." ++ ns ++ ".svc.cluster.local:7700"

/-- The endpoint the Server reconcile probes and records in status
(server_controller.rs lines 66-69): built from the Server's configured
`spec.port`. -/
def server_endpoint (name ns : String) (port : Nat) : String :=
  "http://" ++ name ++ "." ++ ns ++ ".svc.cluster.local:" ++ toString port

/-!
## The Key reconcile (key_controller.rs `reconcile`)
-/

/-- What the cluster knows about the referenced Server: present with its
deletion flag, or absent. -/
inductive ServerState
  | present (deleting : Bool)
  | absent
deriving DecidableEq, Repr

/-- Model of `server_is_deleting` (duplicated in key_controller.rs and
index_controller.rs): a missing Server is treated as deleted/going away. -/
def server_is_deleting : ServerState → Bool
  | .present d => d
  | .absent => true

/-- The engine-native key action enum (`meilisearch_sdk::key::Action`),
with the pass-through variant for unknown strings. -/
inductive MeiliAction
  | all | search | documentsAdd | documentsGet | documentsDelete
  | indexesCreate | indexesGet | indexesUpdate | indexesDelete
  | tasksGet | settingsGet | settingsUpdate | statsGet
  | dumpsCreate | dumpsGet | version
  | keyGet | keyCreate | keyUpdate | keyDelete
  | unknown (s : String)
deriving DecidableEq, Repr

/-- The action-string mapping of the Key create branch
(key_controller.rs lines 159-181). -/
def map_action (s : String) : MeiliAction :=
  match s with
  | "*" => .all
  | "search" => .search
  | "documents.add" => .documentsAdd
  | "documents.get" => .documentsGet
  | "documents.delete" => .documentsDelete
  | "indexes.create" => .indexesCreate
  | "indexes.get" => .indexesGet
  | "indexes.update" => .indexesUpdate
  | "indexes.delete" => .indexesDelete
  | "tasks.get" => .tasksGet
  | "settings.get" => .settingsGet
  | "settings.update" => .settingsUpdate
  | "stats.get" => .statsGet
  | "dumps.create" => .dumpsCreate
  | "dumps.get" => .dumpsGet
  | "version" => .version
  | "keys.get" => .keyGet
  | "keys.create" => .keyCreate
  | "keys.update" => .keyUpdate
  | "keys.delete" => .keyDelete
  | other => .unknown other

/-- What a `KeyBuilder` holds when executed. -/
structure KeyDraft where
  name : Option String
  description : Option String
  actions : List MeiliAction
  indexes : List String
  expiresAt : Option Int
deriving DecidableEq, Repr

/-- The draft the Key create branch builds (key_controller.rs lines
143-188): the name defaults to the CR name, actions are mapped with
`map_action`, an unparseable expiry is silently dropped. -/
def build_key_draft (p : String → Option Int) (crName : String) (spec : KeySpec) : KeyDraft :=
  { name := some (spec.name.getD crName),
    description := spec.description,
    actions := spec.actions.map map_action,
    indexes := spec.indexes,
    expiresAt := spec.expires_at.bind fun e => p e }

/-- The remote-engine calls the reconciles can issue. -/
inductive RemoteCall
  | listKeys
  | createKey (draft : KeyDraft)
  | deleteKey (uid : String)
  | createIndex (uid : String) (primaryKey : Option String)
  | deleteIndex (uid : String)
deriving DecidableEq, Repr

/-- The runtime `Action` a reconcile returns. -/
inductive Action
  | awaitChange
  | requeue (secs : Nat)
deriving DecidableEq, Repr

/-- Model of `existing_secret_key` from key_controller.rs: the key value found in
the target Secret, if any — `string_data` entry first, then a `data` entry
decoded with `.ok()` (a decode failure yields `none`, not an error). -/
def existing_secret_key (dec : List Nat → Option String) (sec : Option KSecret) :
    Option String :=
  match sec with
  | none => none
  | some s =>
    match s.stringData.bind fun sd => sd.lookup "key" with
    | some v => some v
    | none =>
      match s.data.bind fun d => d.lookup "key" with
      | some bytes => dec bytes
      | none => none

/-- The environment of one Key reconcile: the master-key secret lookup
result, the referenced Server's state, the Secret at the spec's target
location, the concatenated `GET /keys` listing, and the row the engine
answers to `POST /keys`. -/
structure KeyEnv where
  masterSecret : Option KSecret
  serverState : ServerState
  targetSecret : Option KSecret
  remoteKeys : List KeyItem
  createdKey : KeyItem
deriving Repr

/-- Everything observable a Key reconcile did. -/
structure KeyOutcome where
  endpoint : String
  remoteCalls : List RemoteCall
  secretsWritten : List (String × KSecret)
  finalizerEnsured : Bool
  finalizerRemoved : Bool
  statusPatch : Option KeyStatus
  action : Action
deriving Repr

/-- The deletion branch of the Key reconcile (key_controller.rs lines
41-50): `deleteKey` is issued only when the Server is not deleting AND
status remembers an engine uid; the finalizer is then removed and
`awaitChange` returned. -/
def keyDeletionOutcome (env : KeyEnv) (key : Key) : KeyOutcome :=
  { endpoint := child_endpoint key.spec.server_ref key.metadata.ns,
    remoteCalls :=
      if !server_is_deleting env.serverState then
        match key.status.bind fun s => s.uid with
        | some uid => [RemoteCall.deleteKey uid]
        | none => []
      else [],
    secretsWritten := [],
    finalizerEnsured := false,
    finalizerRemoved := true,
    statusPatch := none,
    action := .awaitChange }

/-- The shared adopt/reuse tail of the Key reconcile (the store-secret +
patch-status block key_controller.rs repeats in its three adoption
branches): writes `kv` into the target Secret and patches a ready status
with uid `none` and the branch's message. -/
def keyAdoptOutcome (key : Key) (msg : String) (calls : List RemoteCall) (kv : String) :
    KeyOutcome :=
  { endpoint := child_endpoint key.spec.server_ref key.metadata.ns,
    remoteCalls := calls,
    secretsWritten := [(key.spec.secret_namespace,
      store_key_secret key.metadata.ns key.metadata.name (key.metadata.uid.getD "")
        key.spec.secret_namespace key.spec.secret_name kv)],
    finalizerEnsured := true,
    finalizerRemoved := false,
    statusPatch := some { uid := none, ready := true, message := some msg },
    action := .requeue 1200 }

/-- The create tail of the Key reconcile (key_controller.rs lines
143-219): issues `POST /keys` with the built draft, stores the returned
key value and remembers the engine-assigned uid in status (message
stays `none` on this path). -/
def keyCreateOutcome (p : String → Option Int) (env : KeyEnv) (key : Key)
    (calls : List RemoteCall) : KeyOutcome :=
  { endpoint := child_endpoint key.spec.server_ref key.metadata.ns,
    remoteCalls := calls ++ [RemoteCall.createKey (build_key_draft p key.metadata.name key.spec)],
    secretsWritten := [(key.spec.secret_namespace,
      store_key_secret key.metadata.ns key.metadata.name (key.metadata.uid.getD "")
        key.spec.secret_namespace key.spec.secret_name env.createdKey.key)],
    finalizerEnsured := true,
    finalizerRemoved := false,
    statusPatch := some { uid := some env.createdKey.uid, ready := true, message := none },
    action := .requeue 1200 }

/-- The adoption/create cascade of the Key reconcile (key_controller.rs
lines 84-219), entered after the reuse-from-secret branch missed;
`preCalls` are the `GET /keys` listings that branch already issued. -/
def keyMatchOutcome (p : String → Option Int) (env : KeyEnv) (key : Key)
    (preCalls : List RemoteCall) : KeyOutcome :=
  match env.remoteKeys.find? (fun k => matches_spec p k key) with
  | some existing =>
    keyAdoptOutcome key "adopted existing key" (preCalls ++ [RemoteCall.listKeys]) existing.key
  | none =>
    match env.remoteKeys.find? (fun k => matches_spec_relaxed p k key) with
    | some existing =>
      keyAdoptOutcome key "adopted similar existing key"
        (preCalls ++ [RemoteCall.listKeys, RemoteCall.listKeys]) existing.key
    | none =>
      keyCreateOutcome p env key (preCalls ++ [RemoteCall.listKeys, RemoteCall.listKeys])

/-- The live (non-deleting) path of the Key reconcile: the
reuse-from-secret branch first (key_controller.rs lines 54-82), then the
adoption/create cascade. -/
def keyLiveOutcome (dec : List Nat → Option String) (p : String → Option Int)
    (env : KeyEnv) (key : Key) : KeyOutcome :=
  match existing_secret_key dec env.targetSecret with
  | some sv =>
    if env.remoteKeys.any (fun k => k.key == sv) then
      keyAdoptOutcome key "using key from existing Secret" [RemoteCall.listKeys] sv
    else keyMatchOutcome p env key [RemoteCall.listKeys]
  | none => keyMatchOutcome p env key []

/-- Model of `reconcile` from key_controller.rs: the master key is fetched first —
before the deletion-path test — so a missing or malformed master-key
secret fails the whole reconcile regardless of the branch; then the
deletion path or the live path runs. -/
def reconcileKey (dec : List Nat → Option String) (p : String → Option Int)
    (env : KeyEnv) (key : Key) : Except String KeyOutcome :=
  match get_master_key dec env.masterSecret with
  | .error e => .error e
  | .ok _mk =>
    if key.metadata.deletionTimestamp.isSome then
      .ok (keyDeletionOutcome env key)
    else
      .ok (keyLiveOutcome dec p env key)

/-!
## The Index reconcile (index_controller.rs `reconcile`)
-/

/-- The admin-key sub-spec of an Index (crds/index.rs
`IndexAdminKeySpec`). -/
structure IndexAdminKeySpec where
  create : Bool
  secret_namespace : Option String
  secret_name : Option String
deriving DecidableEq, Repr

/-- Spec of an `Index` custom resource (crds/index.rs `IndexSpec`). -/
structure IndexSpec where
  server_ref : String
  uid : String
  primary_key : Option String
  delete_on_finalize : Bool
  admin_key : Option IndexAdminKeySpec
deriving DecidableEq, Repr

/-- Status of an `Index` custom resource (crds/index.rs `IndexStatus`). -/
structure IndexStatus where
  ready : Bool
  message : Option String
deriving DecidableEq, Repr

/-- An `Index` custom resource. -/
structure Index where
  metadata : ObjectMeta
  spec : IndexSpec
deriving DecidableEq, Repr

/-- The environment of one Index reconcile. -/
structure IndexEnv where
  masterSecret : Option KSecret
  serverState : ServerState
  remoteKeys : List AdminKeyItem
  createdKey : AdminKeyItem
deriving Repr

/-- Everything observable an Index reconcile did; `endpoint` is `some`
exactly when the reconcile dialed the engine. -/
structure IndexOutcome where
  endpoint : Option String
  remoteCalls : List RemoteCall
  secretsWritten : List (String × KSecret)
  finalizerEnsured : Bool
  finalizerRemoved : Bool
  statusPatch : Option IndexStatus
  action : Action
deriving Repr

/-- The draft of the admin key the Index create branch builds
(index_controller.rs lines 89-93). -/
def admin_key_draft (uid : String) : KeyDraft :=
  { name := some (uid ++ "-admin"),
    description := some ("Admin key for index " ++ uid),
    actions := [MeiliAction.all],
    indexes := [uid],
    expiresAt := none }

/-- The admin-key step of the Index reconcile (index_controller.rs lines
65-112): adopt the first remote key satisfying `matches_admin`, else
create one; either way write the key value into the resolved target
Secret. -/
def indexAdminStep (env : IndexEnv) (idx : Index) (ak : IndexAdminKeySpec) :
    (List RemoteCall × List (String × KSecret) × Option String) :=
  let ns := idx.metadata.ns
  let target_ns := ak.secret_namespace.getD ns
  let sec_name := ak.secret_name.getD (idx.spec.uid ++ "-admin-key")
  match env.remoteKeys.find? (fun k => matches_admin idx.spec.uid k) with
  | some existing =>
    ([RemoteCall.listKeys],
     [(target_ns, store_index_key_secret ns idx.metadata.name (idx.metadata.uid.getD "")
        target_ns sec_name existing.key)],
     some "adopted existing admin key")
  | none =>
    ([RemoteCall.listKeys, RemoteCall.createKey (admin_key_draft idx.spec.uid)],
     [(target_ns, store_index_key_secret ns idx.metadata.name (idx.metadata.uid.getD "")
        target_ns sec_name env.createdKey.key)],
     none)

/-- Model of `reconcile` from index_controller.rs.  Deletion path: the remote
`DELETE /indexes/{uid}` (followed by a task wait) happens only when the
referenced Server is not deleting AND `delete_on_finalize` is set — and
then the master key is fetched, whose failure fails the reconcile; in every
case reaching the end of the branch the finalizer is removed and
`awaitChange` returned.  Live path: fetch the master key, create-or-accept
the index, run the admin-key step when requested, patch status ready and
requeue after 600 seconds. -/
def reconcileIndex (dec : List Nat → Option String) (env : IndexEnv) (idx : Index) :
    Except String IndexOutcome :=
  let ns := idx.metadata.ns
  if idx.metadata.deletionTimestamp.isSome then
    if !server_is_deleting env.serverState && idx.spec.delete_on_finalize then
      match get_master_key dec env.masterSecret with
      | .error e => .error e
      | .ok _mk =>
        .ok { endpoint := some (child_endpoint idx.spec.server_ref ns),
              remoteCalls := [RemoteCall.deleteIndex idx.spec.uid],
              secretsWritten := [],
              finalizerEnsured := false,
              finalizerRemoved := true,
              statusPatch := none,
              action := .awaitChange }
    else
      .ok { endpoint := none,
            remoteCalls := [],
            secretsWritten := [],
            finalizerEnsured := false,
            finalizerRemoved := true,
            statusPatch := none,
            action := .awaitChange }
  else
    match get_master_key dec env.masterSecret with
    | .error e => .error e
    | .ok _mk =>
      let base := [RemoteCall.createIndex idx.spec.uid idx.spec.primary_key]
      let step :=
        match idx.spec.admin_key with
        | some ak => if ak.create then indexAdminStep env idx ak else ([], [], none)
        | none => ([], [], none)
      .ok { endpoint := some (child_endpoint idx.spec.server_ref ns),
            remoteCalls := base ++ step.1,
            secretsWritten := step.2.1,
            finalizerEnsured := true,
            finalizerRemoved := false,
            statusPatch := some { ready := true, message := step.2.2 },
            action := .requeue 600 }

/-!
## Helper lemmas
-/

lemma eq_unordered_iff_toFinset {α : Type} [DecidableEq α] (a b : List α) :
    eq_unordered a b = true ↔ a.toFinset = b.toFinset := by
  simp [eq_unordered]

lemma same_string_opt_iff (a b : Option String) :
    same_string_opt a b = true ↔ ∀ x, a = some x → b = some x := by
  cases a with
  | none => simp [same_string_opt]
  | some x =>
    cases b with
    | none => simp [same_string_opt]
    | some y =>
      simp only [same_string_opt, beq_iff_eq, Option.some.injEq]
      constructor
      · rintro h z rfl
        exact h.symm
      · intro h
        exact (h x rfl).symm

lemma normalize_actions_id (l : List String) : normalize_actions l = l := by
  simp [normalize_actions]

lemma wait_go_none_iff (probe : Nat → Bool) :
    ∀ r k, wait_meili_healthy_go probe k r = none ↔
      ∀ j, k ≤ j → j ≤ k + r → probe j = false := by
  intro r
  induction r with
  | zero =>
    intro k
    simp only [wait_meili_healthy_go]
    cases hp : probe k with
    | false =>
      simp only [if_neg Bool.false_ne_true]
      constructor
      · intro _ j h1 h2
        have hj : j = k := by omega
        subst hj
        exact hp
      · intro _
        trivial
    | true =>
      simp only [if_pos rfl]
      constructor
      · intro h
        cases h
      · intro h
        have := h k le_rfl (by omega)
        rw [hp] at this
        cases this
  | succ r ih =>
    intro k
    simp only [wait_meili_healthy_go]
    cases hp : probe k with
    | false =>
      simp only [if_neg Bool.false_ne_true]
      rw [ih (k + 1)]
      constructor
      · intro h j h1 h2
        rcases Nat.lt_or_ge k j with hkj | hkj
        · exact h j (by omega) (by omega)
        · have hj : j = k := by omega
          subst hj
          exact hp
      · intro h j h1 h2
        exact h j (by omega) (by omega)
    | true =>
      simp only [if_pos rfl]
      constructor
      · intro h
        cases h
      · intro h
        have := h k le_rfl (by omega)
        rw [hp] at this
        cases this

lemma wait_go_some_iff (probe : Nat → Bool) :
    ∀ r k n, wait_meili_healthy_go probe k r = some n ↔
      (k + 1 ≤ n ∧ n ≤ k + r + 1 ∧ probe (n - 1) = true ∧
       ∀ j, k ≤ j → j < n - 1 → probe j = false) := by
  intro r
  induction r with
  | zero =>
    intro k n
    simp only [wait_meili_healthy_go]
    cases hp : probe k with
    | false =>
      simp only [if_neg Bool.false_ne_true]
      constructor
      · intro h
        cases h
      · rintro ⟨h1, h2, h3, -⟩
        have hn : n = k + 1 := by omega
        subst hn
        simp only [Nat.add_sub_cancel] at h3
        rw [hp] at h3
        cases h3
    | true =>
      simp only [if_pos rfl]
      constructor
      · intro h
        injection h with h
        subst h
        refine ⟨le_rfl, by omega, by simpa using hp, ?_⟩
        intro j h1 h2
        omega
      · rintro ⟨h1, h2, -, -⟩
        have hn : n = k + 1 := by omega
        subst hn
        rfl
  | succ r ih =>
    intro k n
    simp only [wait_meili_healthy_go]
    cases hp : probe k with
    | false =>
      simp only [if_neg Bool.false_ne_true]
      rw [ih (k + 1) n]
      constructor
      · rintro ⟨h1, h2, h3, h4⟩
        refine ⟨by omega, by omega, h3, ?_⟩
        intro j hj1 hj2
        rcases Nat.lt_or_ge k j with hkj | hkj
        · exact h4 j (by omega) hj2
        · have hj : j = k := by omega
          subst hj
          exact hp
      · rintro ⟨h1, h2, h3, h4⟩
        have hn : k + 2 ≤ n := by
          rcases Nat.lt_or_ge (k + 1) n with h | h
          · omega
          · have hn : n = k + 1 := by omega
            subst hn
            simp only [Nat.add_sub_cancel] at h3
            rw [hp] at h3
            cases h3
        exact ⟨by omega, by omega, h3, fun j hj1 hj2 => h4 j (by omega) hj2⟩
    | true =>
      simp only [if_pos rfl]
      constructor
      · intro h
        injection h with h
        subst h
        refine ⟨le_rfl, by omega, by simpa using hp, ?_⟩
        intro j h1 h2
        omega
      · rintro ⟨h1, h2, h3, h4⟩
        have hn : n = k + 1 := by
          by_contra hne
          have := h4 k le_rfl (by omega)
          rw [hp] at this
          cases this
        subst hn
        rfl

/-!
## Claim theorems
-/

/-- C8 (confirmed): for every pair of lists over a decidable-equality
(Rust: hashable) element type, `eq_unordered a b = true` iff the sets of
elements of `a` and `b` are equal; hence it is reflexive, symmetric,
invariant under permutation and under duplication of elements in either
argument, and `eq_unordered [1,2,2] [2,1] = true`. -/
theorem eq_unordered_set_semantics :
    (∀ (α : Type) [DecidableEq α] (a b : List α),
        eq_unordered a b = true ↔ ∀ x, x ∈ a ↔ x ∈ b) ∧
    (∀ (α : Type) [DecidableEq α] (a : List α), eq_unordered a a = true) ∧
    (∀ (α : Type) [DecidableEq α] (a b : List α), eq_unordered a b = eq_unordered b a) ∧
    (∀ (α : Type) [DecidableEq α] (a a' b : List α),
        a.Perm a' → eq_unordered a b = eq_unordered a' b) ∧
    (∀ (α : Type) [DecidableEq α] (x : α) (a b : List α),
        eq_unordered (x :: x :: a) b = eq_unordered (x :: a) b) ∧
    eq_unordered [1, 2, 2] [2, 1] = true := by
  refine ⟨?_, ?_, ?_, ?_, ?_, by decide⟩
  · intro α _ a b
    rw [eq_unordered_iff_toFinset, Finset.ext_iff]
    simp
  · intro α _ a
    simp [eq_unordered]
  · intro α _ a b
    simp [eq_unordered, eq_comm]
  · intro α _ a a' b hperm
    simp [eq_unordered, List.toFinset_eq_of_perm _ _ hperm]
  · intro α _ x a b
    simp [eq_unordered, List.toFinset_cons, Finset.insert_idem]

/-- C5 (confirmed): a secret written by a Key or Index reconcile carries a
controller owner reference (with `blockOwnerDeletion = true`) to the
originating custom resource exactly when the target namespace equals the
resource's namespace, and carries no owner reference otherwise; the
operator-namespace master-key mirror never carries one. -/
theorem secret_owner_reference_policy :
    (∀ ons oname ouid tns sname kv,
        (store_key_secret ons oname ouid tns sname kv).ownerReferences =
          if ons = tns then some [key_owner_ref oname ouid] else none) ∧
    (∀ ons oname ouid tns sname kv,
        (store_index_key_secret ons oname ouid tns sname kv).ownerReferences =
          if ons = tns then some [index_owner_ref oname ouid] else none) ∧
    (∀ oname ouid,
        (key_owner_ref oname ouid).controller = some true ∧
        (key_owner_ref oname ouid).blockOwnerDeletion = some true ∧
        (key_owner_ref oname ouid).kind = "Key" ∧
        (key_owner_ref oname ouid).name = oname) ∧
    (∀ oname ouid,
        (index_owner_ref oname ouid).controller = some true ∧
        (index_owner_ref oname ouid).blockOwnerDeletion = some true ∧
        (index_owner_ref oname ouid).kind = "Index" ∧
        (index_owner_ref oname ouid).name = oname) ∧
    (∀ ns name kv, (ensure_operator_copy ns name kv).ownerReferences = none) := by
  refine ⟨?_, ?_, ?_, ?_, ?_⟩
  · intro ons oname ouid tns sname kv
    by_cases h : ons = tns <;> simp [store_key_secret, h]
  · intro ons oname ouid tns sname kv
    by_cases h : ons = tns <;> simp [store_index_key_secret, h]
  · intro oname ouid
    exact ⟨rfl, rfl, rfl, rfl⟩
  · intro oname ouid
    exact ⟨rfl, rfl, rfl, rfl⟩
  · intro ns name kv
    rfl

/-- C2 (counterexample): with `max_attempts = 1` a probe sequence that
fails on the first probe and succeeds on the second still ends in success
after TWO probes — the loop checks `attempts > max_attempts` only after
probing, so it performs `max_attempts + 1` probes, not at most
`max_attempts`; likewise with the default 120 the 121st probe is still
issued and can succeed. -/
theorem wait_healthy_extra_probe :
    wait_meili_healthy_with (fun k => k == 1) 2 1 = some 2 ∧
    wait_meili_healthy (fun k => k == 120) = some 121 := by
  constructor
  · rfl
  · rfl

/-- C2 (corrected): the health wait returns success as soon as any probe
returns 2xx, and performs at most `max_attempts + 1` probes (121 with the
default 120): it returns `some n` iff the n-th probe (1 ≤ n ≤
max_attempts + 1) is the first successful one, and it returns the error
iff all `max_attempts + 1` probes fail. -/
theorem wait_healthy_probe_count (probe : Nat → Bool) (interval m : Nat) :
    (wait_meili_healthy_with probe interval m = none ↔
      ∀ k, k ≤ m → probe k = false) ∧
    (∀ n, wait_meili_healthy_with probe interval m = some n ↔
      (1 ≤ n ∧ n ≤ m + 1 ∧ probe (n - 1) = true ∧
       ∀ k, k < n - 1 → probe k = false)) ∧
    wait_meili_healthy probe = wait_meili_healthy_with probe 2 120 := by
  refine ⟨?_, ?_, rfl⟩
  · rw [wait_meili_healthy_with, wait_go_none_iff]
    constructor
    · intro h k hk
      exact h k (Nat.zero_le k) (by omega)
    · intro h j _ hj
      exact h j (by omega)
  · intro n
    rw [wait_meili_healthy_with, wait_go_some_iff]
    constructor
    · rintro ⟨h1, h2, h3, h4⟩
      exact ⟨h1, by omega, h3, fun k hk => h4 k (Nat.zero_le k) hk⟩
    · rintro ⟨h1, h2, h3, h4⟩
      exact ⟨h1, by omega, h3, fun j _ hj => h4 j hj⟩

lemma expiry_match_iff (p : String → Option Int) (se ie : Option String) :
    (match se, ie with
     | some s, some i => parse_rfc3339_opt p (some s) == parse_rfc3339_opt p (some i)
     | some _, none => false
     | _, _ => true) = true ↔
      ∀ e, se = some e → ∃ i, ie = some i ∧ p e = p i := by
  cases se <;> cases ie <;> simp [parse_rfc3339_opt]

lemma matches_spec_iff_parts (p : String → Option Int) (item : KeyItem) (key : Key) :
    matches_spec p item key = true ↔
      (same_string_opt key.spec.name item.name = true ∧
       same_string_opt key.spec.description item.description = true ∧
       eq_unordered (normalize_actions key.spec.actions) item.actions = true ∧
       eq_unordered key.spec.indexes item.indexes = true ∧
       (∀ e, key.spec.expires_at = some e → ∃ i, item.expiresAt = some i ∧ p e = p i)) := by
  unfold matches_spec
  cases h1 : same_string_opt key.spec.name item.name with
  | false => simp
  | true =>
    cases h2 : same_string_opt key.spec.description item.description with
    | false => simp
    | true =>
      cases h3 : eq_unordered (normalize_actions key.spec.actions) item.actions with
      | false => simp
      | true =>
        cases h4 : eq_unordered key.spec.indexes item.indexes with
        | false => simp
        | true =>
          simp only [Bool.not_true, Bool.false_eq_true, if_false, eq_self_iff_true, true_and]
          exact expiry_match_iff p key.spec.expires_at item.expiresAt

/-- C3 (confirmed): the exact-adoption predicate holds iff: a set spec
name/description must match the remote one and a null one accepts any;
spec and remote actions are equal as unordered sets, likewise indexes;
and a set spec expiry requires a remote expiry whose parse result equals
the spec's parse result, while a null spec expiry accepts any remote
expiry. -/
theorem matches_spec_characterization (p : String → Option Int) (item : KeyItem) (key : Key) :
    matches_spec p item key = true ↔
      ((∀ n, key.spec.name = some n → item.name = some n) ∧
       (∀ d, key.spec.description = some d → item.description = some d) ∧
       key.spec.actions.toFinset = item.actions.toFinset ∧
       key.spec.indexes.toFinset = item.indexes.toFinset ∧
       (∀ e, key.spec.expires_at = some e →
          ∃ i, item.expiresAt = some i ∧ p e = p i)) := by
  rw [matches_spec_iff_parts, same_string_opt_iff, same_string_opt_iff,
    eq_unordered_iff_toFinset, eq_unordered_iff_toFinset, normalize_actions_id]

/-- C4 (confirmed): `ensure_master_key_secret` returns the decoded
existing `masterKey` entry and creates nothing when the secret exists and
carries one; otherwise it generates a fresh 64-character alphanumeric
string and submits a create carrying a controller owner reference to the
Server, returning the generated value on success and equally on a 409
conflict. -/
theorem ensure_master_key_secret_behavior (dec : List Nat → Option String)
    (rng : Nat → Fin 62) (name sname suid : String) :
    (∀ (env : MasterKeyEnv) (sec : KSecret) (bytes : List Nat) (v : String),
        env.existing = some sec →
        (sec.data.bind fun d => d.lookup "masterKey") = some bytes →
        dec bytes = some v →
        ensure_master_key_secret dec rng env name (owner_ref sname suid) = .ok (v, none)) ∧
    (∀ env : MasterKeyEnv,
        ((env.existing.bind fun s => s.data).bind fun d => d.lookup "masterKey") = none →
        (env.createOutcome = .success ∨ env.createOutcome = .conflict409) →
        ensure_master_key_secret dec rng env name (owner_ref sname suid) =
          .ok (sample_alphanumeric rng 64,
            some { name := some (name ++ "-meili-master"),
                   ownerReferences := some [owner_ref sname suid],
                   data := none,
                   stringData := some [("masterKey", sample_alphanumeric rng 64)] })) ∧
    (sample_alphanumeric rng 64).length = 64 ∧
    (∀ c ∈ (sample_alphanumeric rng 64).data, c.isAlphanum = true) ∧
    (owner_ref sname suid).controller = some true ∧
    (owner_ref sname suid).blockOwnerDeletion = some true ∧
    (owner_ref sname suid).kind = "Server" := by
  refine ⟨?_, ?_, ?_, ?_, rfl, rfl, rfl⟩
  · intro env sec bytes v hex hdata hdec
    simp [ensure_master_key_secret, hex, hdata, hdec]
  · intro env hnone hco
    unfold ensure_master_key_secret
    rw [hnone]
    rcases hco with h | h <;> rw [h]
  · simp [sample_alphanumeric, String.length]
  · intro c hc
    have hc2 : c ∈ (List.range 64).map fun j => alphanumChar (rng j) := hc
    rw [List.mem_map] at hc2
    obtain ⟨j, -, rfl⟩ := hc2
    have halpha : ∀ i : Fin 62, (alphanumChar i).isAlphanum = true := by decide
    exact halpha (rng j)

/-- C7 (confirmed): with `adminKey.create = true`, a remote key is adopted
iff its actions contain "*", its indexes equal the singleton set of the
index uid, its name is "<uid>-admin" and its description is
"Admin key for index <uid>"; on adoption the status message is
"adopted existing admin key" and no engine key is created; with no match a
key with actions `[All]`, indexes `[uid]`, that name and that description
is created. -/
theorem admin_key_adoption_behavior (dec : List Nat → Option String) :
    (∀ (uid : String) (item : AdminKeyItem),
        matches_admin uid item = true ↔
          ("*" ∈ item.actions ∧ item.indexes.toFinset = {uid} ∧
           item.name = some (uid ++ "-admin") ∧
           item.description = some ("Admin key for index " ++ uid))) ∧
    (∀ (env : IndexEnv) (idx : Index) (ak : IndexAdminKeySpec) (k : AdminKeyItem)
        (out : IndexOutcome),
        idx.metadata.deletionTimestamp = none →
        idx.spec.admin_key = some ak → ak.create = true →
        env.remoteKeys.find? (fun j => matches_admin idx.spec.uid j) = some k →
        reconcileIndex dec env idx = .ok out →
        out.statusPatch = some { ready := true, message := some "adopted existing admin key" } ∧
        ∀ d, RemoteCall.createKey d ∉ out.remoteCalls) ∧
    (∀ (env : IndexEnv) (idx : Index) (ak : IndexAdminKeySpec) (out : IndexOutcome),
        idx.metadata.deletionTimestamp = none →
        idx.spec.admin_key = some ak → ak.create = true →
        env.remoteKeys.find? (fun j => matches_admin idx.spec.uid j) = none →
        reconcileIndex dec env idx = .ok out →
        RemoteCall.createKey (admin_key_draft idx.spec.uid) ∈ out.remoteCalls ∧
        admin_key_draft idx.spec.uid =
          { name := some (idx.spec.uid ++ "-admin"),
            description := some ("Admin key for index " ++ idx.spec.uid),
            actions := [MeiliAction.all], indexes := [idx.spec.uid],
            expiresAt := none }) := by
  refine ⟨?_, ?_, ?_⟩
  · intro uid item
    simp only [matches_admin, Bool.and_eq_true, List.any_eq_true, beq_iff_eq,
      eq_unordered_iff_toFinset]
    cases hn : item.name <;> cases hd : item.description <;>
      simp [List.toFinset_cons, List.toFinset_nil, and_assoc]
    intros
    exact eq_comm
  · intro env idx ak k out hdel hak hcr hfind hrec
    rw [reconcileIndex] at hrec
    rw [hdel] at hrec
    simp only [Option.isSome_none, Bool.false_eq_true, if_false] at hrec
    rcases hmk : get_master_key dec env.masterSecret with e | mk <;> rw [hmk] at hrec
    · cases hrec
    · rw [hak] at hrec
      simp only [hcr, if_true] at hrec
      rw [indexAdminStep, hfind] at hrec
      injection hrec with hout
      subst hout
      refine ⟨rfl, ?_⟩
      intro d hmem
      simp at hmem
  · intro env idx ak out hdel hak hcr hfind hrec
    rw [reconcileIndex] at hrec
    rw [hdel] at hrec
    simp only [Option.isSome_none, Bool.false_eq_true, if_false] at hrec
    rcases hmk : get_master_key dec env.masterSecret with e | mk <;> rw [hmk] at hrec
    · cases hrec
    · rw [hak] at hrec
      simp only [hcr, if_true] at hrec
      rw [indexAdminStep, hfind] at hrec
      injection hrec with hout
      subst hout
      exact ⟨by simp, rfl⟩

lemma reconcileKey_ok_cases (dec : List Nat → Option String) (p : String → Option Int)
    (env : KeyEnv) (key : Key) (out : KeyOutcome)
    (h : reconcileKey dec p env key = .ok out) :
    (key.metadata.deletionTimestamp.isSome = true ∧ out = keyDeletionOutcome env key) ∨
    (key.metadata.deletionTimestamp.isSome = false ∧ out = keyLiveOutcome dec p env key) := by
  unfold reconcileKey at h
  cases hmk : get_master_key dec env.masterSecret with
  | error e =>
    rw [hmk] at h
    cases h
  | ok mk =>
    rw [hmk] at h
    cases hd : key.metadata.deletionTimestamp.isSome with
    | true =>
      rw [hd] at h
      rw [if_pos rfl] at h
      exact Or.inl ⟨rfl, (Except.ok.inj h).symm⟩
    | false =>
      rw [hd] at h
      rw [if_neg Bool.false_ne_true] at h
      exact Or.inr ⟨rfl, (Except.ok.inj h).symm⟩

lemma keyMatchOutcome_endpoint (p : String → Option Int) (env : KeyEnv) (key : Key)
    (pre : List RemoteCall) :
    (keyMatchOutcome p env key pre).endpoint =
      child_endpoint key.spec.server_ref key.metadata.ns := by
  unfold keyMatchOutcome
  split
  · rfl
  · split <;> rfl

lemma keyLiveOutcome_endpoint (dec : List Nat → Option String) (p : String → Option Int)
    (env : KeyEnv) (key : Key) :
    (keyLiveOutcome dec p env key).endpoint =
      child_endpoint key.spec.server_ref key.metadata.ns := by
  unfold keyLiveOutcome
  split
  · split
    · rfl
    · exact keyMatchOutcome_endpoint p env key [RemoteCall.listKeys]
  · exact keyMatchOutcome_endpoint p env key []

lemma keyMatchOutcome_uid (p : String → Option Int) (env : KeyEnv) (key : Key)
    (pre : List RemoteCall) (st : KeyStatus)
    (h : (keyMatchOutcome p env key pre).statusPatch = some st) :
    st.uid = none ∨
      (st.uid = some env.createdKey.uid ∧ st.message = none ∧
       RemoteCall.createKey (build_key_draft p key.metadata.name key.spec) ∈
         (keyMatchOutcome p env key pre).remoteCalls) := by
  cases hf1 : env.remoteKeys.find? (fun k => matches_spec p k key) with
  | some ex =>
    unfold keyMatchOutcome at h
    rw [hf1] at h
    simp only [keyAdoptOutcome, Option.some.injEq] at h
    subst h
    exact Or.inl rfl
  | none =>
    cases hf2 : env.remoteKeys.find? (fun k => matches_spec_relaxed p k key) with
    | some ex =>
      unfold keyMatchOutcome at h
      rw [hf1, hf2] at h
      simp only [keyAdoptOutcome, Option.some.injEq] at h
      subst h
      exact Or.inl rfl
    | none =>
      unfold keyMatchOutcome at h ⊢
      rw [hf1, hf2] at h ⊢
      simp only [keyCreateOutcome, Option.some.injEq] at h
      subst h
      refine Or.inr ⟨rfl, rfl, ?_⟩
      simp [keyCreateOutcome]

lemma keyLiveOutcome_uid (dec : List Nat → Option String) (p : String → Option Int)
    (env : KeyEnv) (key : Key) (st : KeyStatus)
    (h : (keyLiveOutcome dec p env key).statusPatch = some st) :
    st.uid = none ∨
      (st.uid = some env.createdKey.uid ∧ st.message = none ∧
       RemoteCall.createKey (build_key_draft p key.metadata.name key.spec) ∈
         (keyLiveOutcome dec p env key).remoteCalls) := by
  unfold keyLiveOutcome at h ⊢
  cases hes : existing_secret_key dec env.targetSecret with
  | some sv =>
    rw [hes] at h
    dsimp only at h ⊢
    cases hany : env.remoteKeys.any (fun k => k.key == sv) with
    | true =>
      rw [hany, if_pos rfl] at h
      simp only [keyAdoptOutcome, Option.some.injEq] at h
      subst h
      exact Or.inl rfl
    | false =>
      rw [hany, if_neg Bool.false_ne_true] at h
      rw [if_neg Bool.false_ne_true]
      exact keyMatchOutcome_uid p env key [RemoteCall.listKeys] st h
  | none =>
    rw [hes] at h
    dsimp only at h ⊢
    exact keyMatchOutcome_uid p env key [] st h

lemma keyDeletionOutcome_no_calls (env : KeyEnv) (key : Key)
    (h : (key.status.bind fun s => s.uid) = none) :
    (keyDeletionOutcome env key).remoteCalls = [] := by
  cases hs : server_is_deleting env.serverState <;> simp [keyDeletionOutcome, h, hs]

lemma reconcileIndex_endpoint (dec : List Nat → Option String) (env : IndexEnv)
    (idx : Index) (out : IndexOutcome) (h : reconcileIndex dec env idx = .ok out) :
    out.endpoint = none ∨
      out.endpoint = some (child_endpoint idx.spec.server_ref idx.metadata.ns) := by
  unfold reconcileIndex at h
  by_cases hd : idx.metadata.deletionTimestamp.isSome = true
  · rw [if_pos hd] at h
    cases hc : (!server_is_deleting env.serverState && idx.spec.delete_on_finalize) with
    | true =>
      rw [hc, if_pos rfl] at h
      cases hmk : get_master_key dec env.masterSecret with
      | error e =>
        rw [hmk] at h
        cases h
      | ok mk =>
        rw [hmk] at h
        rw [← Except.ok.inj h]
        exact Or.inr rfl
    | false =>
      rw [hc, if_neg Bool.false_ne_true] at h
      rw [← Except.ok.inj h]
      exact Or.inl rfl
  · rw [if_neg hd] at h
    cases hmk : get_master_key dec env.masterSecret with
    | error e =>
      rw [hmk] at h
      cases h
    | ok mk =>
      rw [hmk] at h
      rw [← Except.ok.inj h]
      exact Or.inr rfl

/-- C1 (corrected, amended part): a Key reconcile invoked with
`deletionTimestamp` set while the referenced Server is deleting or absent
issues no remote-engine call, clears the finalizer and returns
`awaitChange` without failing — PROVIDED the Server's master-key secret
still yields a master key; the unamended claim's "whether or not the
master-key secret still exists" is refuted by the counterexample. -/
theorem key_deletion_requires_master_secret (dec : List Nat → Option String)
    (p : String → Option Int) (env : KeyEnv) (key : Key)
    (hdel : key.metadata.deletionTimestamp.isSome = true)
    (hsrv : server_is_deleting env.serverState = true)
    (hmk : ∃ mk, get_master_key dec env.masterSecret = .ok mk) :
    reconcileKey dec p env key =
      .ok { endpoint := child_endpoint key.spec.server_ref key.metadata.ns,
            remoteCalls := [], secretsWritten := [], finalizerEnsured := false,
            finalizerRemoved := true, statusPatch := none, action := .awaitChange } := by
  obtain ⟨mk, hmkv⟩ := hmk
  simp [reconcileKey, hmkv, hdel, keyDeletionOutcome, hsrv]

/-!
### Concrete inputs for witnesses and counterexamples
-/

def decWit : List Nat → Option String := fun _ => some "masterkey"

def parseWit : String → Option Int := fun _ => none

def mkSecretWit : KSecret :=
  { name := some "demo-meili-master", ownerReferences := none,
    data := some [("masterKey", [107])], stringData := none }

def itemWit : KeyItem :=
  { name := none, description := none, key := "K", uid := "U",
    actions := ["search"], indexes := ["*"], expiresAt := none }

def keyDelWit : Key :=
  { metadata := { ns := "ns1", name := "k1", uid := some "u1",
                  deletionTimestamp := some "2026-01-01T00:00:00Z",
                  finalizers := ["meili.operator.dev/finalizer"] },
    spec := { server_ref := "demo", name := none, description := none,
              actions := ["search"], indexes := ["*"], expires_at := none,
              secret_namespace := "ns1", secret_name := "k1-secret" },
    status := some { uid := some "engine-uid", ready := true, message := none } }

def envDeletingWit : KeyEnv :=
  { masterSecret := some mkSecretWit, serverState := .present true,
    targetSecret := none, remoteKeys := [], createdKey := itemWit }

def envNoMasterWit : KeyEnv :=
  { masterSecret := none, serverState := .absent, targetSecret := none,
    remoteKeys := [], createdKey := itemWit }

/-- C1 witness: the amended theorem at a concrete deleting Key on a
deleting Server whose master-key secret is still present. -/
theorem key_deletion_requires_master_secret_witness :
    reconcileKey decWit parseWit envDeletingWit keyDelWit =
      .ok { endpoint := child_endpoint "demo" "ns1",
            remoteCalls := [], secretsWritten := [], finalizerEnsured := false,
            finalizerRemoved := true, statusPatch := none, action := .awaitChange } :=
  key_deletion_requires_master_secret decWit parseWit envDeletingWit keyDelWit rfl rfl
    ⟨"masterkey", rfl⟩

/-- C1 counterexample: a deleting Key whose referenced Server is absent
and whose master-key secret no longer exists FAILS the reconcile with the
propagated 404 (the master key is fetched before the deletion-path test),
contradicting the claim that this case does not fail. -/
theorem key_deletion_missing_master_secret_fails :
    reconcileKey decWit parseWit envNoMasterWit keyDelWit = .error "kube api error 404" :=
  rfl

/-- C6 (confirmed): on an Index reconcile with `deletionTimestamp` set
(and, when a remote deletion is due, a readable master-key secret), the
remote `DELETE /indexes/{uid}` is issued iff the referenced Server is not
deleting AND `deleteOnFinalize` is true, nothing else is called remotely,
and in every case the finalizer is cleared and `awaitChange` returned. -/
theorem index_deletion_path_behavior (dec : List Nat → Option String) (env : IndexEnv)
    (idx : Index)
    (hdel : idx.metadata.deletionTimestamp.isSome = true)
    (hmk : server_is_deleting env.serverState = false → idx.spec.delete_on_finalize = true →
      ∃ mk, get_master_key dec env.masterSecret = .ok mk) :
    ∃ out, reconcileIndex dec env idx = .ok out ∧
      out.finalizerRemoved = true ∧ out.action = .awaitChange ∧
      out.secretsWritten = [] ∧ out.statusPatch = none ∧
      (RemoteCall.deleteIndex idx.spec.uid ∈ out.remoteCalls ↔
        server_is_deleting env.serverState = false ∧ idx.spec.delete_on_finalize = true) ∧
      ∀ c ∈ out.remoteCalls, c = RemoteCall.deleteIndex idx.spec.uid := by
  cases hs : server_is_deleting env.serverState with
  | false =>
    cases hdof : idx.spec.delete_on_finalize with
    | true =>
      obtain ⟨mk, hmkv⟩ := hmk hs hdof
      refine ⟨{ endpoint := some (child_endpoint idx.spec.server_ref idx.metadata.ns),
                remoteCalls := [RemoteCall.deleteIndex idx.spec.uid],
                secretsWritten := [], finalizerEnsured := false, finalizerRemoved := true,
                statusPatch := none, action := .awaitChange }, ?_, rfl, rfl, rfl, rfl, ?_, ?_⟩
      · simp [reconcileIndex, hdel, hs, hdof, hmkv]
      · simp [hs, hdof]
      · simp
    | false =>
      refine ⟨{ endpoint := none, remoteCalls := [], secretsWritten := [],
                finalizerEnsured := false, finalizerRemoved := true,
                statusPatch := none, action := .awaitChange }, ?_, rfl, rfl, rfl, rfl, ?_, ?_⟩
      · simp [reconcileIndex, hdel, hs, hdof]
      · simp [hdof]
      · simp
  | true =>
    refine ⟨{ endpoint := none, remoteCalls := [], secretsWritten := [],
              finalizerEnsured := false, finalizerRemoved := true,
              statusPatch := none, action := .awaitChange }, ?_, rfl, rfl, rfl, rfl, ?_, ?_⟩
    · simp [reconcileIndex, hdel, hs]
    · simp [hs]
    · simp

def adminItemWit : AdminKeyItem :=
  { name := some "prod-admin", description := some "Admin key for index prod",
    key := "PK", uid := "PU", actions := ["*"], indexes := ["prod"] }

def idxDelWit : Index :=
  { metadata := { ns := "ns1", name := "i1", uid := some "iu",
                  deletionTimestamp := some "2026-01-01T00:00:00Z",
                  finalizers := ["meili.operator.dev/finalizer"] },
    spec := { server_ref := "demo", uid := "prod", primary_key := none,
              delete_on_finalize := true, admin_key := none } }

def idxEnvWit : IndexEnv :=
  { masterSecret := some mkSecretWit, serverState := .present false,
    remoteKeys := [], createdKey := adminItemWit }

/-- C6 witness: the theorem at a concrete deleting Index with
`deleteOnFinalize = true` on a live Server. -/
theorem index_deletion_path_behavior_witness :
    ∃ out, reconcileIndex decWit idxEnvWit idxDelWit = .ok out ∧
      out.finalizerRemoved = true ∧ out.action = .awaitChange ∧
      out.secretsWritten = [] ∧ out.statusPatch = none ∧
      (RemoteCall.deleteIndex idxDelWit.spec.uid ∈ out.remoteCalls ↔
        server_is_deleting idxEnvWit.serverState = false ∧
        idxDelWit.spec.delete_on_finalize = true) ∧
      ∀ c ∈ out.remoteCalls, c = RemoteCall.deleteIndex idxDelWit.spec.uid :=
  index_deletion_path_behavior decWit idxEnvWit idxDelWit rfl
    (fun _ _ => ⟨"masterkey", rfl⟩)

/-- C9 (confirmed): every engine endpoint an Index or Key reconcile
dials is `http://<serverRef>.<namespace>.svc.cluster.local:7700` — the
port is the literal 7700, independent of the Server's configured
`spec.port`, and coincides with the Server controller's own endpoint
only at port 7700. -/
theorem child_endpoint_fixed_port (dec : List Nat → Option String) (p : String → Option Int) :
    (∀ (env : KeyEnv) (key : Key) (out : KeyOutcome),
        reconcileKey dec p env key = .ok out →
        out.endpoint = "http://" ++ key.spec.server_ref ++ "." ++ key.metadata.ns ++
          ".svc.cluster.local:7700") ∧
    (∀ (env : IndexEnv) (idx : Index) (out : IndexOutcome) (e : String),
        reconcileIndex dec env idx = .ok out → out.endpoint = some e →
        e = "http://" ++ idx.spec.server_ref ++ "." ++ idx.metadata.ns ++
          ".svc.cluster.local:7700") ∧
    (∀ server ns : String, child_endpoint server ns = server_endpoint server ns 7700) := by
  refine ⟨?_, ?_, ?_⟩
  · intro env key out h
    rcases reconcileKey_ok_cases dec p env key out h with ⟨-, rfl⟩ | ⟨-, rfl⟩
    · rfl
    · exact keyLiveOutcome_endpoint dec p env key
  · intro env idx out e h he
    rcases reconcileIndex_endpoint dec env idx out h with h0 | h1
    · rw [h0] at he
      cases he
    · rw [h1] at he
      exact (Option.some.inj he).symm
  · intro server ns
    have h : ".svc.cluster.local:7700" = ".svc.cluster.local:" ++ toString (7700 : Nat) := rfl
    unfold child_endpoint server_endpoint
    rw [String.append_assoc, h]
    simp [String.append_assoc]

/-- C10 (confirmed): a Key reconcile ending in any adoption branch
(reuse-from-secret, exact or relaxed adoption) writes a status whose uid
is none — only the create branch records the engine-assigned uid — and a
deletion-path reconcile of a Key whose status uid is none issues no
remote-engine call at all, whatever the Server's state. -/
theorem adoption_leaves_status_uid_none (dec : List Nat → Option String)
    (p : String → Option Int) :
    (∀ (env : KeyEnv) (key : Key) (out : KeyOutcome) (st : KeyStatus),
        reconcileKey dec p env key = .ok out → out.statusPatch = some st →
        st.uid = none ∨
          (st.uid = some env.createdKey.uid ∧ st.message = none ∧
           RemoteCall.createKey (build_key_draft p key.metadata.name key.spec) ∈
             out.remoteCalls)) ∧
    (∀ (env : KeyEnv) (key : Key) (out : KeyOutcome) (st : KeyStatus),
        reconcileKey dec p env key = .ok out → out.statusPatch = some st →
        (st.message = some "adopted existing key" ∨
         st.message = some "adopted similar existing key" ∨
         st.message = some "using key from existing Secret") →
        st.uid = none) ∧
    (∀ (env : KeyEnv) (key : Key) (out : KeyOutcome),
        key.metadata.deletionTimestamp.isSome = true →
        (key.status.bind fun s => s.uid) = none →
        reconcileKey dec p env key = .ok out →
        out.remoteCalls = []) := by
  have main : ∀ (env : KeyEnv) (key : Key) (out : KeyOutcome) (st : KeyStatus),
      reconcileKey dec p env key = .ok out → out.statusPatch = some st →
      st.uid = none ∨
        (st.uid = some env.createdKey.uid ∧ st.message = none ∧
         RemoteCall.createKey (build_key_draft p key.metadata.name key.spec) ∈
           out.remoteCalls) := by
    intro env key out st h hst
    rcases reconcileKey_ok_cases dec p env key out h with ⟨-, rfl⟩ | ⟨-, rfl⟩
    · simp [keyDeletionOutcome] at hst
    · exact keyLiveOutcome_uid dec p env key st hst
  refine ⟨main, ?_, ?_⟩
  · intro env key out st h hst hmsg
    rcases main env key out st h hst with h0 | ⟨-, hm, -⟩
    · exact h0
    · rcases hmsg with hm2 | hm2 | hm2 <;> rw [hm2] at hm <;> cases hm
  · intro env key out hdel huid h
    rcases reconcileKey_ok_cases dec p env key out h with ⟨-, rfl⟩ | ⟨hd, rfl⟩
    · exact keyDeletionOutcome_no_calls env key huid
    · rw [hdel] at hd
      cases hd

end MeiliOp
